import Mathlib

/-!
Verification of the homology-arm boundary inference of knock-knock
(`knock_knock/build_targets.py`, function `identify_homology_arms` and its
helpers).  Sequences are shallowly embedded as `List Char`; Python string
primitives (`s[a:b]`, `str.find`, `str.rfind`) are modelled with Python's
exact index-normalisation semantics; the numpy cumulative-sum / argmin
mismatch scan is modelled with explicit list recursion.  The external
seed-and-extend matcher (`hits.sw.SeedAndExtender`) is an argument of the
embedded function, and a concrete matcher modelled from its documented
contract is supplied for closed evaluations.
-/

set_option maxRecDepth 100000
set_option maxHeartbeats 1000000

namespace KnockKnock

/-- DNA complement as used by the external `hits.utilities` module:
`A↔T`, `C↔G`, `N↦N`; other characters are left unchanged. -/
def complement (c : Char) : Char :=
  if c = 'A' then 'T'
  else if c = 'T' then 'A'
  else if c = 'C' then 'G'
  else if c = 'G' then 'C'
  else c

/-- Reverse complement of a DNA sequence (`hits.utilities.reverse_complement`). -/
def reverse_complement (s : List Char) : List Char :=
  (s.map complement).reverse

/-- Python slice `s[a:b]` with Python's normalisation of negative and
out-of-range indices: a negative index counts from the end (clamped at 0),
a nonnegative index is clamped at `len(s)`. -/
def strSlice (s : List Char) (a b : Int) : List Char :=
  let n : Int := s.length
  let aN : Nat := (if a < 0 then max (n + a) 0 else min a n).toNat
  let bN : Nat := (if b < 0 then max (n + b) 0 else min b n).toNat
  (s.take bN).drop aN

/-- Candidate match positions used by the models of `str.find`/`str.rfind`:
positions `i` with `lo ≤ i`, `i + |sub| ≤ hi`, at which `sub` occurs in `s`. -/
def findCandidates (s sub : List Char) (lo hi : Nat) : List Nat :=
  (List.range (s.length + 1)).filter
    (fun i => decide (lo ≤ i) && decide (i + sub.length ≤ hi) &&
      decide ((s.drop i).take sub.length = sub))

/-- Python's normalisation of a search start bound: negative values count
from the end (clamped at 0), nonnegative values are kept as is. -/
def pyStart (n : Nat) (start : Int) : Nat :=
  (if start < 0 then max ((n : Int) + start) 0 else start).toNat

/-- Python's normalisation of a search stop bound: negative values count
from the end (clamped at 0), nonnegative values are clamped at `n`. -/
def pyStop (n : Nat) (stop : Int) : Nat :=
  (if stop < 0 then max ((n : Int) + stop) 0 else min stop (n : Int)).toNat

/-- Python `s.find(sub, start)`: lowest index `i ≥ start` (start normalised
Python-style) such that `sub` is contained in `s[start:]`; `-1` if none. -/
def pyFind (s sub : List Char) (start : Int) : Int :=
  match findCandidates s sub (pyStart s.length start) s.length with
  | [] => -1
  | i :: _ => (i : Int)

/-- Python `s.rfind(sub, start, stop)`: highest index `i` such that `sub` is
contained in `s[start:stop]` (both bounds normalised Python-style); `-1` if
none. -/
def pyRfind (s sub : List Char) (start stop : Int) : Int :=
  match (findCandidates s sub (pyStart s.length start) (pyStop s.length stop)).getLast? with
  | none => -1
  | some i => (i : Int)

/-- `np.cumsum`: running (inclusive) prefix sums of a list. -/
def cumsum : List Nat → List Nat
  | [] => []
  | x :: xs => x :: (cumsum xs).map (x + ·)

/-- Pointwise mismatch indicators `[t != d for t, d in zip(xs, ys)]`
(1 at mismatching positions, 0 elsewhere), truncated to the shorter list
exactly as Python's `zip` truncates. -/
def mmList (xs ys : List Char) : List Nat :=
  List.zipWith (fun a b => if a = b then 0 else 1) xs ys

/-- Fold used to model Python's `min(..., key=...)` and `np.argmin`:
scan left to right, replacing the current best only on strict improvement,
so the first optimum in scan order is kept. -/
def foldMin {α : Type} (lt : α → α → Bool) : α → List α → α
  | acc, [] => acc
  | acc, x :: xs => foldMin lt (if lt x acc then x else acc) xs

/-- `np.argmin`: index of the first minimal element of a list (`0` on `[]`,
where numpy would raise instead; the caller models that case separately). -/
def argminIdx (l : List Nat) : Nat :=
  foldMin (fun i j => decide (l.getD i 0 < l.getD j 0)) 0 (List.range' 1 (l.length - 1))

/-- An ungapped alignment of a query substring onto the donor reference,
as produced by the seed-and-extend matcher (coordinates on the donor,
`is_reverse` true for a minus-strand hit), mirroring the pysam fields
read by `identify_homology_arms`. -/
structure Alignment where
  reference_start : Nat
  reference_end : Nat
  is_reverse : Bool
deriving DecidableEq, Repr

/-- A named annotation interval (the fields of the emitted
`Bio.SeqFeature.SeqFeature` records that the algorithm determines:
id/label, start, end, strand). -/
structure Feature where
  id : String
  start : Int
  stop : Int
  strand : Int
deriving DecidableEq, Repr

/-- The per-candidate boundary record built in the `possible_HAs` loop of
`identify_homology_arms` (the `info` dict plus its `lengths` entries). -/
structure HAInfo where
  min_mismatches : Nat
  possibly_flipped_donor_seq : List Char
  donor_HA_start : Int
  donor_HA_end : Int
  target_HA_start : Int
  target_HA_end : Int
  HA_1 : Nat
  HA_2 : Nat
  donor_specific : Int
deriving DecidableEq, Repr

/-- Outcome of `identify_homology_arms`: a tagged failure dict, a success
dict (`possibly_flipped_donor_seq`, donor features, target features), or an
uncaught Python exception. -/
inductive HAResult where
  | failed (reason : String)
  | success (possibly_flipped_donor_seq : List Char)
      (donor_features : List Feature) (target_features : List Feature)
  | pyError (msg : String)
deriving DecidableEq, Repr

/-- Seed window start positions scanned on the before_cut side:
`range(cut_after - required_match_length, 0, -1)` (descending, stops at 1;
position 0 is never generated). -/
def beforeSeedStarts (cut_after rml : Nat) : List Nat :=
  (List.range' 1 (cut_after - rml)).reverse

/-- Seed window start positions scanned on the after_cut side:
`range(cut_after, len(target_seq) - required_match_length)` (ascending,
end exclusive). -/
def afterSeedStarts (target_len cut_after rml : Nat) : List Nat :=
  List.range' cut_after ((target_len - rml) - cut_after)

/-- The seed scan loop: try each seed start in order, return the matcher's
alignments for the first start yielding a nonempty list, `none` if the scan
range is exhausted (the for-else in `identify_homology_arms`). -/
def findAlignments (mapper : Nat → Nat → List Alignment) (rml : Nat) :
    List Nat → Option (List Alignment)
  | [] => none
  | s :: rest =>
    let als := mapper s (s + rml)
    if als.isEmpty then findAlignments mapper rml rest else some als

/-- The candidate boundary windows built from the cartesian product of
before_cut × after_cut alignments: equal-strand pairs in cut-compatible
order, with minus-strand pairs flipped onto the reverse-complemented donor
(`start = L - 1 - (ref_end - 1)`, `end = L - 1 - ref_start + 1`). -/
def possible_HA_boundaries (donor_seq : List Char)
    (befores afters : List Alignment) : List (List Char × Int × Int) :=
  befores.flatMap (fun b => afters.filterMap (fun a =>
    if b.is_reverse = a.is_reverse then
      if b.is_reverse = false then
        if b.reference_end < a.reference_start then
          some (donor_seq, ((b.reference_start : Int), (a.reference_end : Int)))
        else none
      else
        if b.reference_start > a.reference_end then
          some (reverse_complement donor_seq,
            ((donor_seq.length : Int) - 1 - ((b.reference_end : Int) - 1),
             (donor_seq.length : Int) - 1 - (a.reference_start : Int) + 1))
        else none
    else none))

/-- `donor_window = possibly_flipped_donor_seq[HA_start:HA_end]`. -/
def donor_window (pfd : List Char) (hs he : Int) : List Char :=
  strSlice pfd hs he

/-- `donor_prefix = donor_window[:required_match_length]`. -/
def donor_pre (rml : Nat) (dw : List Char) : List Char :=
  strSlice dw 0 (rml : Int)

/-- `donor_suffix = donor_window[-required_match_length:]`. -/
def donor_suf (rml : Nat) (dw : List Char) : List Char :=
  strSlice dw (-(rml : Int)) (dw.length : Int)

/-- `target_HA_start = target_seq.rfind(donor_prefix, 0, cut_after +
required_match_length)`. -/
def target_HA_start (t : List Char) (c rml : Nat) (dw : List Char) : Int :=
  pyRfind t (donor_pre rml dw) 0 ((c : Int) + (rml : Int))

/-- `target_HA_end = target_seq.find(donor_suffix, cut_after -
required_match_length) + len(donor_suffix)` (note: the `-1` sentinel of a
failed `find` is absorbed into this sum before it is ever tested). -/
def target_HA_end (t : List Char) (c rml : Nat) (dw : List Char) : Int :=
  pyFind t (donor_suf rml dw) ((c : Int) - (rml : Int)) + ((donor_suf rml dw).length : Int)

/-- `relevant_target_seq = target_seq[target_HA_start:target_HA_end]`. -/
def relevant_target_seq (t : List Char) (c rml : Nat) (dw : List Char) : List Char :=
  strSlice t (target_HA_start t c rml dw) (target_HA_end t c rml dw)

/-- The `total_mismatches` array of the crossover scan: forward cumulative
mismatches plus backward cumulative strictly-after mismatches, each over the
`zip`-truncated pairing of the target span with the donor window (with
numpy's broadcasting of the `[0]`-padded backward array). -/
def total_mismatches (relevant dw : List Char) : List Nat :=
  let before := cumsum (mmList relevant dw)
  let r := mmList relevant.reverse dw.reverse
  let after := (cumsum (0 :: r.dropLast)).reverse
  List.zipWith (· + ·) before after

/-- Outcome of processing one candidate boundary window: the tagged
in-target failure, the ValueError numpy raises on an empty mismatch array,
or a completed `info` record. -/
inductive CandOut where
  | failedInTarget
  | valueErr
  | ok (info : HAInfo)
deriving DecidableEq, Repr

/-- The `info` record (with its `lengths` entries) that the `possible_HAs`
loop builds for one candidate boundary window, when neither in-target
failure occurs: the crossover index is the first argmin of the mismatch
array, `lengths[HA_1] = argmin + 1`, `lengths[HA_2] = total_HA_length -
lengths[HA_1]`, `lengths[donor_specific] = len(donor_seq) -
total_HA_length`. -/
def candInfo (t : List Char) (c rml dl : Nat) (pfd : List Char) (hs he : Int) : HAInfo :=
  let dw := donor_window pfd hs he
  let ts := target_HA_start t c rml dw
  let te := target_HA_end t c rml dw
  let total := total_mismatches (relevant_target_seq t c rml dw) dw
  let idx := argminIdx total
  { min_mismatches := total.getD idx 0
    possibly_flipped_donor_seq := pfd
    donor_HA_start := hs
    donor_HA_end := he
    target_HA_start := ts
    target_HA_end := te
    HA_1 := idx + 1
    HA_2 := (te - ts).toNat - (idx + 1)
    donor_specific := (dl : Int) - ((te - ts).toNat : Int) }

/-- The body of the `possible_HAs` loop of `identify_homology_arms` for one
candidate `(possibly_flipped_donor_seq, HA_start, HA_end)`. -/
def processCandidate (t : List Char) (c rml dl : Nat) :
    List Char × Int × Int → CandOut
  | (pfd, hs, he) =>
    let dw := donor_window pfd hs he
    let ts := target_HA_start t c rml dw
    let te := target_HA_end t c rml dw
    if ts = -1 ∨ te = -1 ∨ ts ≥ te then .failedInTarget
    else if total_mismatches (relevant_target_seq t c rml dw) dw = [] then .valueErr
    else .ok (candInfo t c rml dl pfd hs he)

/-- Run the `possible_HAs` loop over all candidate boundary windows: the
first in-target failure (or ValueError) aborts the whole call, otherwise
the accumulated `info` records are returned in generation order. -/
def scanCandidates (t : List Char) (c rml dl : Nat) :
    List (List Char × Int × Int) → Except HAResult (List HAInfo)
  | [] => .ok []
  | cand :: rest =>
    match processCandidate t c rml dl cand with
    | .failedInTarget => .error (.failed "cannot locate homology arms in target")
    | .valueErr => .error (.pyError "ValueError: attempt to get argmin of an empty sequence")
    | .ok info =>
      match scanCandidates t c rml dl rest with
      | .error e => .error e
      | .ok l => .ok (info :: l)

/-- The sort key `priority(info)` used to pick the best candidate:
`(min_mismatches, -min(lengths[HA_1], lengths[HA_2]))`, compared
lexicographically as Python compares tuples. -/
def priorityKey (info : HAInfo) : Lex (Int × Int) :=
  toLex ((info.min_mismatches : Int), -(min info.HA_1 info.HA_2 : Int))

/-- Python's `min(possible_HAs, key=priority)` on a nonempty list:
left-to-right scan keeping the first element with the smallest key. -/
def pyMinBy (h : HAInfo) (l : List HAInfo) : HAInfo :=
  foldMin (fun x y => decide (priorityKey x < priorityKey y)) h l

/-- `identify_homology_arms` up to the choice of the best candidate
(`results` at line 300 of build_targets.py): either a propagated failure
value, an uncaught Python exception, or the winning `info` record.  When
`possible_HAs` is empty the source builds a failure dict but then
immediately evaluates `results['lengths']`, raising `KeyError`. -/
def best_info (mapper : Nat → Nat → List Alignment) (donor_seq : List Char)
    (target_seq : List Char) (cut_after rml : Nat) : Except HAResult HAInfo :=
  match findAlignments mapper rml (beforeSeedStarts cut_after rml) with
  | none => .error (.failed "cannot locate homology arm on before_cut")
  | some befores =>
    match findAlignments mapper rml (afterSeedStarts target_seq.length cut_after rml) with
    | none => .error (.failed "cannot locate homology arm on after_cut")
    | some afters =>
      match scanCandidates target_seq cut_after rml donor_seq.length
          (possible_HA_boundaries donor_seq befores afters) with
      | .error e => .error e
      | .ok [] => .error (.pyError "KeyError: lengths")
      | .ok (h :: tl) => .ok (pyMinBy h tl)

/-- Feature materialisation for the winning candidate: donor features
`HA_1`, `donor_specific`, `HA_2` (plus `PCR_adapter_1`/`PCR_adapter_2` for
a PCR-type donor when the HA span does not reach the donor ends), and
target features `HA_1`, `HA_2`, in the source's dict insertion order. -/
def buildFeatures (donor_len : Nat) (donor_type : String) (info : HAInfo) : HAResult :=
  let ds_HA1 : Int := info.donor_HA_start
  let ds_spec : Int := info.donor_HA_start + (info.HA_1 : Int)
  let ds_HA2 : Int := info.donor_HA_end - (info.HA_2 : Int)
  let de_HA1 : Int := ds_HA1 + (info.HA_1 : Int)
  let de_HA2 : Int := ds_HA2 + (info.HA_2 : Int)
  let base : List Feature :=
    [⟨"HA_1", ds_HA1, de_HA1, 1⟩,
     ⟨"donor_specific", ds_spec, ds_HA2, 1⟩,
     ⟨"HA_2", ds_HA2, de_HA2, 1⟩]
  let adapters : List Feature :=
    if donor_type = "PCR" then
      (if ds_HA1 ≠ 0 then [⟨"PCR_adapter_1", 0, ds_HA1, 1⟩] else []) ++
      (if de_HA2 ≠ (donor_len : Int) then [⟨"PCR_adapter_2", de_HA2, (donor_len : Int), 1⟩] else [])
    else []
  let target_feats : List Feature :=
    [⟨"HA_1", info.target_HA_start, info.target_HA_start + (info.HA_1 : Int), 1⟩,
     ⟨"HA_2", info.target_HA_end - (info.HA_2 : Int),
       info.target_HA_end - (info.HA_2 : Int) + (info.HA_2 : Int), 1⟩]
  .success info.possibly_flipped_donor_seq (base ++ adapters) target_feats

/-- The full `identify_homology_arms(donor_seq, donor_type, target_seq,
cut_after, required_match_length)` with the external seed-and-extend
matcher passed explicitly as `mapper`. -/
def identify_homology_arms_with (mapper : Nat → Nat → List Alignment)
    (donor_seq : List Char) (donor_type : String) (target_seq : List Char)
    (cut_after rml : Nat) : HAResult :=
  match best_info mapper donor_seq target_seq cut_after rml with
  | .error r => r
  | .ok info => buildFeatures donor_seq.length donor_type info

/-- Leftward ungapped-extension length of a match: the number of
consecutive positions `j` (scanning outward) at which `ref` just before
position `p` agrees with `query` just before position `qs`. -/
def extendLeft (ref query : List Char) (p qs : Nat) : Nat :=
  ((List.range (min p qs)).takeWhile
    (fun j => ref.getD (p - 1 - j) ' ' = query.getD (qs - 1 - j) ' ')).length

/-- Rightward ungapped-extension length of a match starting at `ref`
position `pe` and `query` position `qe`. -/
def extendRight (ref query : List Char) (pe qe : Nat) : Nat :=
  ((List.range (min (ref.length - pe) (query.length - qe))).takeWhile
    (fun j => ref.getD (pe + j) ' ' = query.getD (qe + j) ' ')).length

/-- Minus-strand leftward extension on the reference: `ref` just before `p`
must agree with the complement of `query` just after `qe`. -/
def extendLeftRC (ref query : List Char) (p qe : Nat) : Nat :=
  ((List.range (min p (query.length - qe))).takeWhile
    (fun j => ref.getD (p - 1 - j) ' ' = complement (query.getD (qe + j) ' '))).length

/-- Minus-strand rightward extension on the reference: `ref` from `pe`
onward must agree with the complement of `query` just before `qs`. -/
def extendRightRC (ref query : List Char) (pe qs : Nat) : Nat :=
  ((List.range (min (ref.length - pe) qs)).takeWhile
    (fun j => ref.getD (pe + j) ' ' = complement (query.getD (qs - 1 - j) ' '))).length

/-- Deduplicate keeping the first occurrence of each element. -/
def dedupKeepFirst (l : List Alignment) : List Alignment :=
  go [] l
where
  go (seen : List Alignment) : List Alignment → List Alignment
    | [] => []
    | x :: xs => if x ∈ seen then go seen xs else x :: go (x :: seen) xs

/-- Modelled from the spec: the external seed-and-extend matcher
(`hits.sw.SeedAndExtender.seed_and_extend`, not part of this repository;
spec §4.1).  It extracts the seed substring `query[seedStart:seedEnd)`,
finds all exact occurrences of it in the reference on both strands (a
minus-strand occurrence is an occurrence of the seed's reverse
complement), extends each occurrence outward ungapped as far as
characters continue to agree (strand-aware), and returns one alignment
per extended hit, deduplicated by (start, end, strand). -/
def seedAndExtend (ref query : List Char) (seedStart seedEnd : Nat) : List Alignment :=
  let seed := (query.take seedEnd).drop seedStart
  let len := seed.length
  if len = 0 then [] else
  let fwd := (List.range (ref.length + 1 - len)).filterMap (fun p =>
    if (ref.drop p).take len = seed then
      let el := extendLeft ref query p seedStart
      let er := extendRight ref query (p + len) seedEnd
      some ⟨p - el, p + len + er, false⟩
    else none)
  let rcSeed := reverse_complement seed
  let rev := (List.range (ref.length + 1 - len)).filterMap (fun p =>
    if (ref.drop p).take len = rcSeed then
      let el := extendLeftRC ref query p seedEnd
      let er := extendRightRC ref query (p + len) seedStart
      some ⟨p - el, p + len + er, true⟩
    else none)
  dedupKeepFirst (fwd ++ rev)

/-- The source-faithful entry point `identify_homology_arms(donor_seq,
donor_type, target_seq, cut_after, required_match_length=15)`: the matcher
is the seed-and-extend matcher indexed on the donor and queried with
windows of the target. -/
def identify_homology_arms (donor_seq : List Char) (donor_type : String)
    (target_seq : List Char) (cut_after rml : Nat) : HAResult :=
  identify_homology_arms_with
    (fun s e => seedAndExtend donor_seq target_seq s e)
    donor_seq donor_type target_seq cut_after rml

/-! ### Helper lemmas about the embedded primitives -/

theorem cumsum_length (l : List Nat) : (cumsum l).length = l.length := by
  induction l with
  | nil => rfl
  | cons x xs ih => simp [cumsum, ih]

theorem cumsum_getD (l : List Nat) (i : Nat) (hi : i < l.length) :
    (cumsum l).getD i 0 = (l.take (i + 1)).sum := by
  induction l generalizing i with
  | nil => simp at hi
  | cons x xs ih =>
    cases i with
    | zero => simp [cumsum]
    | succ j =>
      have hj : j < xs.length := by simpa using hi
      simp only [cumsum, List.getD_cons_succ]
      rw [List.getD_eq_getElem _ _ (by simp [cumsum_length]; omega)]
      simp only [List.getElem_map]
      rw [← List.getD_eq_getElem _ 0 (by rw [cumsum_length]; omega), ih j hj]
      simp [List.take_succ_cons]

theorem mmList_length (xs ys : List Char) :
    (mmList xs ys).length = min xs.length ys.length := by
  simp [mmList]

theorem mmList_reverse (xs ys : List Char) (h : xs.length = ys.length) :
    mmList xs.reverse ys.reverse = (mmList xs ys).reverse := by
  induction xs generalizing ys with
  | nil =>
    cases ys with
    | nil => rfl
    | cons y ys => simp at h
  | cons x xs ih =>
    cases ys with
    | nil => simp at h
    | cons y ys =>
      have h' : xs.length = ys.length := by simpa using h
      simp only [List.reverse_cons, mmList]
      rw [List.zipWith_append _ _ _ _ _ (by simp [h'])]
      have hih := ih ys h'
      simp only [mmList] at hih
      simp [hih]

theorem getD_reverse (l : List Nat) (i : Nat) (hi : i < l.length) :
    l.reverse.getD i 0 = l.getD (l.length - 1 - i) 0 := by
  rw [List.getD_eq_getElem _ _ (by simpa using hi),
      List.getD_eq_getElem _ _ (by omega)]
  exact List.getElem_reverse (by simpa using hi)

theorem zipWith_add_getD (a b : List Nat) (i : Nat)
    (ha : i < a.length) (hb : i < b.length) :
    (List.zipWith (· + ·) a b).getD i 0 = a.getD i 0 + b.getD i 0 := by
  rw [List.getD_eq_getElem _ _ (by simp; omega),
      List.getD_eq_getElem _ _ ha, List.getD_eq_getElem _ _ hb]
  simp [List.getElem_zipWith]

theorem mmList_take (xs ys : List Char) (n : Nat) :
    (mmList xs ys).take n = mmList (xs.take n) (ys.take n) := by
  induction xs generalizing ys n with
  | nil => simp [mmList]
  | cons x xs ih =>
    cases ys with
    | nil => simp [mmList]
    | cons y ys =>
      cases n with
      | zero => simp [mmList]
      | succ m => simp [mmList, List.take_succ_cons] at ih ⊢; exact ih ys m

theorem mmList_drop (xs ys : List Char) (n : Nat) :
    (mmList xs ys).drop n = mmList (xs.drop n) (ys.drop n) := by
  induction xs generalizing ys n with
  | nil => simp [mmList]
  | cons x xs ih =>
    cases ys with
    | nil => simp [mmList]
    | cons y ys =>
      cases n with
      | zero => simp
      | succ m => simp [mmList] at ih ⊢; exact ih ys m

theorem total_mismatches_length (xs ys : List Char) :
    (total_mismatches xs ys).length = min xs.length ys.length := by
  simp only [total_mismatches, List.length_zipWith, cumsum_length,
    mmList_length, List.length_reverse, List.length_cons, List.length_dropLast]
  omega

theorem total_mismatches_getD (xs ys : List Char) (h : xs.length = ys.length)
    (i : Nat) (hi : i < xs.length) :
    (total_mismatches xs ys).getD i 0 =
      (mmList (xs.take (i + 1)) (ys.take (i + 1))).sum +
      (mmList (xs.drop (i + 1)) (ys.drop (i + 1))).sum := by
  have hml : (mmList xs ys).length = xs.length := by rw [mmList_length, h]; omega
  have hbl : (cumsum (mmList xs ys)).length = xs.length := by
    rw [cumsum_length, hml]
  have hrev : mmList xs.reverse ys.reverse = (mmList xs ys).reverse :=
    mmList_reverse xs ys h
  have hal : ((cumsum (0 :: (mmList xs.reverse ys.reverse).dropLast)).reverse).length
      = xs.length := by
    simp [cumsum_length, hrev, hml]
    omega
  simp only [total_mismatches]
  rw [zipWith_add_getD _ _ i (by rw [hbl]; exact hi) (by rw [hal]; exact hi)]
  have hbefore : (cumsum (mmList xs ys)).getD i 0 =
      (mmList (xs.take (i + 1)) (ys.take (i + 1))).sum := by
    rw [cumsum_getD _ i (by rw [hml]; exact hi), mmList_take]
  have hafter : ((cumsum (0 :: (mmList xs.reverse ys.reverse).dropLast)).reverse).getD i 0 =
      (mmList (xs.drop (i + 1)) (ys.drop (i + 1))).sum := by
    rw [hrev]
    set l := mmList xs ys with hl
    have hlen : l.length = xs.length := hml
    have hlc : (cumsum (0 :: l.reverse.dropLast)).length = xs.length := by
      simp [cumsum_length, hlen]; omega
    rw [getD_reverse _ i (by rw [hlc]; exact hi), hlc]
    rw [cumsum_getD _ _ (by
      simp only [List.length_cons, List.length_dropLast, List.length_reverse, hlen]
      omega)]
    rw [← mmList_drop, List.take_succ_cons, List.sum_cons, Nat.zero_add]
    rw [List.dropLast_eq_take, List.take_take]
    have hmin : min (xs.length - 1 - i) (l.reverse.length - 1) = xs.length - 1 - i := by
      simp only [List.length_reverse, hlen]
      omega
    rw [hmin, List.take_reverse, List.sum_reverse, ← hl]
    have harg : l.length - (xs.length - 1 - i) = i + 1 := by omega
    rw [harg]
  rw [hbefore, hafter]

theorem foldMin_mem {α : Type} (lt : α → α → Bool) :
    ∀ (l : List α) (acc : α), foldMin lt acc l = acc ∨ foldMin lt acc l ∈ l := by
  intro l
  induction l with
  | nil => intro acc; exact Or.inl rfl
  | cons x xs ih =>
    intro acc
    simp only [foldMin]
    by_cases hc : lt x acc = true
    · rw [if_pos hc]
      rcases ih x with h | h
      · exact Or.inr (by rw [h]; exact List.mem_cons_self _ _)
      · exact Or.inr (List.mem_cons_of_mem _ h)
    · rw [if_neg hc]
      rcases ih acc with h | h
      · exact Or.inl h
      · exact Or.inr (List.mem_cons_of_mem _ h)

theorem foldMin_spec {α β : Type} [LinearOrder β] (key : α → β) :
    ∀ (l : List α) (acc : α),
      ∃ i, ∃ hi : i < (acc :: l).length,
        foldMin (fun x y => decide (key x < key y)) acc l = (acc :: l).get ⟨i, hi⟩ ∧
        (∀ j (hj : j < (acc :: l).length),
          key (foldMin (fun x y => decide (key x < key y)) acc l) ≤
            key ((acc :: l).get ⟨j, hj⟩)) ∧
        (∀ j (hj : j < (acc :: l).length),
          key ((acc :: l).get ⟨j, hj⟩) ≤
            key (foldMin (fun x y => decide (key x < key y)) acc l) → i ≤ j) := by
  intro l
  induction l with
  | nil =>
    intro acc
    refine ⟨0, by simp, rfl, ?_, ?_⟩
    · intro j hj
      simp only [List.length_singleton, Nat.lt_one_iff] at hj
      subst hj
      exact le_refl _
    · intro j hj hle
      exact Nat.zero_le j
  | cons x xs ih =>
    intro acc
    simp only [foldMin]
    by_cases hlt : key x < key acc
    · rw [if_pos (by simpa using hlt)]
      obtain ⟨i, hi, heq, hmin, hfirst⟩ := ih x
      refine ⟨i + 1, by simpa using hi, heq, ?_, ?_⟩
      · intro j hj
        cases j with
        | zero =>
          exact le_trans (hmin 0 (by simp)) (le_of_lt hlt)
        | succ k =>
          exact hmin k (by simpa using hj)
      · intro j hj hle
        cases j with
        | zero =>
          exact absurd hle
            (not_le.mpr (lt_of_le_of_lt (hmin 0 (by simp)) hlt))
        | succ k =>
          exact Nat.succ_le_succ (hfirst k (by simpa using hj) hle)
    · rw [if_neg (by simpa using hlt)]
      have hge : key acc ≤ key x := le_of_not_lt hlt
      obtain ⟨i, hi, heq, hmin, hfirst⟩ := ih acc
      cases i with
      | zero =>
        refine ⟨0, by simp, heq, ?_, ?_⟩
        · intro j hj
          cases j with
          | zero => exact hmin 0 (by simp)
          | succ k =>
            cases k with
            | zero => exact le_trans (hmin 0 (by simp)) hge
            | succ m =>
              exact hmin (m + 1) (by simpa using hj)
        · intro j hj hle
          exact Nat.zero_le j
      | succ k =>
        refine ⟨k + 2, by simpa using hi, heq, ?_, ?_⟩
        · intro j hj
          cases j with
          | zero => exact hmin 0 (by simp)
          | succ j' =>
            cases j' with
            | zero => exact le_trans (hmin 0 (by simp)) hge
            | succ m =>
              exact hmin (m + 1) (by simpa using hj)
        · intro j hj hle
          cases j with
          | zero =>
            exact absurd (hfirst 0 (by simp) hle) (by omega)
          | succ j' =>
            cases j' with
            | zero =>
              exact absurd (hfirst 0 (by simp) (le_trans hge hle)) (by omega)
            | succ m =>
              exact Nat.succ_le_succ (hfirst (m + 1) (by simpa using hj) hle)

theorem argminIdx_spec (l : List Nat) (hl : l ≠ []) :
    argminIdx l < l.length ∧
    (∀ j, j < l.length → l.getD (argminIdx l) 0 ≤ l.getD j 0) ∧
    (∀ j, j < l.length → l.getD j 0 ≤ l.getD (argminIdx l) 0 → argminIdx l ≤ j) := by
  have hpos : 0 < l.length := List.length_pos.mpr hl
  have hlen : (0 :: List.range' 1 (l.length - 1)).length = l.length := by
    simp only [List.length_cons, List.length_range']
    omega
  have hget : ∀ (j : Nat) (hj : j < (0 :: List.range' 1 (l.length - 1)).length),
      (0 :: List.range' 1 (l.length - 1)).get ⟨j, hj⟩ = j := by
    intro j hj
    cases j with
    | zero => rfl
    | succ k =>
      have hk : k < (List.range' 1 (l.length - 1)).length := by
        have := hj
        simp only [List.length_cons] at this
        omega
      show (List.range' 1 (l.length - 1)).get ⟨k, hk⟩ = k + 1
      rw [List.get_eq_getElem, List.getElem_range']
      simp [Nat.add_comm]
  obtain ⟨i, hi, heq, hmin, hfirst⟩ :=
    foldMin_spec (fun idx => l.getD idx 0) (List.range' 1 (l.length - 1)) 0
  have hfold : argminIdx l =
      foldMin (fun x y => decide (l.getD x 0 < l.getD y 0)) 0
        (List.range' 1 (l.length - 1)) := rfl
  have hival : argminIdx l = i := by
    rw [hfold, heq, hget i hi]
  constructor
  · rw [hival]; rw [hlen] at hi; exact hi
  constructor
  · intro j hj
    have hj' : j < (0 :: List.range' 1 (l.length - 1)).length := by omega
    have := hmin j hj'
    rw [hget j hj', ← hfold] at this
    exact this
  · intro j hj hle
    have hj' : j < (0 :: List.range' 1 (l.length - 1)).length := by omega
    have := hfirst j hj'
    rw [hget j hj', ← hfold] at this
    rw [hival]
    exact this hle

theorem findAlignments_eq_none (mapper : Nat → Nat → List Alignment) (rml : Nat)
    (ss : List Nat) (h : ∀ s ∈ ss, mapper s (s + rml) = []) :
    findAlignments mapper rml ss = none := by
  induction ss with
  | nil => rfl
  | cons s rest ih =>
    simp only [findAlignments]
    rw [h s (List.mem_cons_self _ _)]
    simp only [List.isEmpty_nil, if_true]
    exact ih (fun s' hs' => h s' (List.mem_cons_of_mem _ hs'))

theorem findAlignments_append (mapper : Nat → Nat → List Alignment) (rml : Nat)
    (l1 l2 : List Nat) (h : ∀ s ∈ l1, mapper s (s + rml) = []) :
    findAlignments mapper rml (l1 ++ l2) = findAlignments mapper rml l2 := by
  induction l1 with
  | nil => rfl
  | cons s rest ih =>
    simp only [List.cons_append, findAlignments]
    rw [h s (List.mem_cons_self _ _)]
    simp only [List.isEmpty_nil, if_true]
    exact ih (fun s' hs' => h s' (List.mem_cons_of_mem _ hs'))

theorem findAlignments_first (mapper : Nat → Nat → List Alignment) (rml : Nat)
    (l1 l2 : List Nat) (s' : Nat)
    (h1 : ∀ s ∈ l1, mapper s (s + rml) = []) (h2 : mapper s' (s' + rml) ≠ []) :
    findAlignments mapper rml (l1 ++ s' :: l2) = some (mapper s' (s' + rml)) := by
  rw [findAlignments_append mapper rml l1 _ h1]
  simp only [findAlignments]
  rw [if_neg (by simpa [List.isEmpty_iff] using h2)]

theorem scanCandidates_mem (t : List Char) (c rml dl : Nat) :
    ∀ (cands : List (List Char × Int × Int)) (l : List HAInfo),
      scanCandidates t c rml dl cands = .ok l →
      ∀ info ∈ l, ∃ cand ∈ cands, processCandidate t c rml dl cand = .ok info := by
  intro cands
  induction cands with
  | nil =>
    intro l h info hinfo
    simp only [scanCandidates] at h
    cases h
    simp at hinfo
  | cons cand rest ih =>
    intro l h info hinfo
    simp only [scanCandidates] at h
    split at h
    · cases h
    · cases h
    · rename_i info' hpc
      split at h
      · cases h
      · rename_i l' hrest
        cases h
        rcases List.mem_cons.mp hinfo with heq | hmem
        · exact ⟨cand, List.mem_cons_self _ _, by rw [hpc, heq]⟩
        · obtain ⟨cand', hc', hp'⟩ := ih l' hrest info hmem
          exact ⟨cand', List.mem_cons_of_mem _ hc', hp'⟩

theorem pyStop_le (n : Nat) (stop : Int) : pyStop n stop ≤ n := by
  simp only [pyStop]
  split <;> omega

theorem pyFind_bounds (s sub : List Char) (start : Int)
    (h : pyFind s sub start ≠ -1) :
    ∃ i : Nat, pyFind s sub start = (i : Int) ∧ i + sub.length ≤ s.length := by
  simp only [pyFind] at h ⊢
  cases hE : findCandidates s sub (pyStart s.length start) s.length with
  | nil => rw [hE] at h; simp at h
  | cons i rest =>
    have hmem : i ∈ findCandidates s sub (pyStart s.length start) s.length := by
      rw [hE]; exact List.mem_cons_self _ _
    have hpred := (List.mem_filter.mp hmem).2
    simp only [Bool.and_eq_true, decide_eq_true_eq] at hpred
    exact ⟨i, rfl, hpred.1.2⟩

theorem pyRfind_bounds (s sub : List Char) (start stop : Int)
    (h : pyRfind s sub start stop ≠ -1) :
    ∃ i : Nat, pyRfind s sub start stop = (i : Int) ∧
      i + sub.length ≤ pyStop s.length stop := by
  simp only [pyRfind] at h ⊢
  cases hE : (findCandidates s sub (pyStart s.length start) (pyStop s.length stop)).getLast? with
  | none => rw [hE] at h; simp at h
  | some i =>
    have hmem := List.mem_of_getLast?_eq_some hE
    have hpred := (List.mem_filter.mp hmem).2
    simp only [Bool.and_eq_true, decide_eq_true_eq] at hpred
    exact ⟨i, rfl, hpred.1.2⟩

theorem strSlice_length (s : List Char) (a b : Int) (ha : 0 ≤ a) (hb : 0 ≤ b) :
    (strSlice s a b).length =
      (min b (s.length : Int)).toNat - (min a (s.length : Int)).toNat := by
  simp only [strSlice]
  rw [if_neg (by omega), if_neg (by omega)]
  simp only [List.length_drop, List.length_take]
  omega

theorem strSlice_length_of_le (s : List Char) (a b : Int)
    (ha : 0 ≤ a) (hab : a ≤ b) (hb : b ≤ (s.length : Int)) :
    (strSlice s a b).length = (b - a).toNat := by
  rw [strSlice_length s a b ha (le_trans ha hab)]
  omega

theorem processCandidate_ok (t : List Char) (c rml dl : Nat) (pfd : List Char)
    (hs he : Int) (info : HAInfo)
    (h : processCandidate t c rml dl (pfd, hs, he) = CandOut.ok info) :
    target_HA_start t c rml (donor_window pfd hs he) ≠ -1 ∧
    target_HA_end t c rml (donor_window pfd hs he) ≠ -1 ∧
    target_HA_start t c rml (donor_window pfd hs he) <
      target_HA_end t c rml (donor_window pfd hs he) ∧
    total_mismatches (relevant_target_seq t c rml (donor_window pfd hs he))
      (donor_window pfd hs he) ≠ [] ∧
    info = candInfo t c rml dl pfd hs he := by
  simp only [processCandidate] at h
  split at h
  · cases h
  · split at h
    · cases h
    · rename_i hc htot
      push_neg at hc
      injection h with h'
      exact ⟨hc.1, hc.2.1, hc.2.2, htot, h'.symm⟩

theorem target_HA_bounds (t : List Char) (c rml : Nat) (dw : List Char)
    (hts : target_HA_start t c rml dw ≠ -1)
    (hlt : target_HA_start t c rml dw < target_HA_end t c rml dw) :
    0 ≤ target_HA_start t c rml dw ∧
    target_HA_start t c rml dw ≤ (t.length : Int) ∧
    (relevant_target_seq t c rml dw).length ≤
      (target_HA_end t c rml dw - target_HA_start t c rml dw).toNat := by
  obtain ⟨i, hival, hib⟩ := pyRfind_bounds t (donor_pre rml dw) 0 ((c : Int) + (rml : Int)) hts
  have hstop := pyStop_le t.length ((c : Int) + (rml : Int))
  have hts0 : (0 : Int) ≤ target_HA_start t c rml dw := by
    rw [show target_HA_start t c rml dw =
      pyRfind t (donor_pre rml dw) 0 ((c : Int) + (rml : Int)) from rfl, hival]
    positivity
  have htsn : target_HA_start t c rml dw ≤ (t.length : Int) := by
    rw [show target_HA_start t c rml dw =
      pyRfind t (donor_pre rml dw) 0 ((c : Int) + (rml : Int)) from rfl, hival]
    exact_mod_cast Nat.le_trans (Nat.le_trans (Nat.le_add_right _ _) hib) hstop
  refine ⟨hts0, htsn, ?_⟩
  rw [show relevant_target_seq t c rml dw =
    strSlice t (target_HA_start t c rml dw) (target_HA_end t c rml dw) from rfl]
  rw [strSlice_length t _ _ hts0 (le_trans hts0 (le_of_lt hlt))]
  omega

theorem best_info_ok (mapper : Nat → Nat → List Alignment) (d t : List Char)
    (c rml : Nat) (info : HAInfo)
    (h : best_info mapper d t c rml = .ok info) :
    ∃ befores afters h0 tl,
      findAlignments mapper rml (beforeSeedStarts c rml) = some befores ∧
      findAlignments mapper rml (afterSeedStarts t.length c rml) = some afters ∧
      scanCandidates t c rml d.length
        (possible_HA_boundaries d befores afters) = .ok (h0 :: tl) ∧
      info = pyMinBy h0 tl := by
  simp only [best_info] at h
  split at h
  · cases h
  · rename_i befores hb
    split at h
    · cases h
    · rename_i afters ha
      split at h
      · cases h
      · cases h
      · rename_i h0 tl hscan
        injection h with h'
        exact ⟨befores, afters, h0, tl, hb, ha, hscan, h'.symm⟩

theorem best_info_processed (mapper : Nat → Nat → List Alignment) (d t : List Char)
    (c rml : Nat) (info : HAInfo)
    (h : best_info mapper d t c rml = .ok info) :
    ∃ pfd hs he, processCandidate t c rml d.length (pfd, hs, he) = .ok info := by
  obtain ⟨befores, afters, h0, tl, hb, ha, hscan, hinfo⟩ :=
    best_info_ok mapper d t c rml info h
  have hmem : info ∈ h0 :: tl := by
    rcases foldMin_mem (fun x y => decide (priorityKey x < priorityKey y)) tl h0 with hh | hh
    · rw [hinfo, show pyMinBy h0 tl =
        foldMin (fun x y => decide (priorityKey x < priorityKey y)) h0 tl from rfl, hh]
      exact List.mem_cons_self _ _
    · rw [hinfo]
      exact List.mem_cons_of_mem _ hh
  obtain ⟨cand, hcand, hproc⟩ :=
    scanCandidates_mem t c rml d.length _ _ hscan info hmem
  obtain ⟨pfd, hs, he⟩ := cand
  exact ⟨pfd, hs, he, hproc⟩

/-! ### Concrete evaluation inputs -/

/-- A donor containing the target's before-cut window forward and the
reverse complement of its after-cut window: both seed scans succeed but no
equal-strand compatible pair exists, so `possible_HAs` stays empty. -/
def donor1 : List Char := "AACAACAACAACAACGGGGTGGTGGTGGTGGT".toList

/-- Target for `donor1`: 20 nt flank, 15 nt before-cut window, 15 nt
after-cut window, 20 nt flank; cut_after = 35. -/
def target1 : List Char :=
  ("GTGTGTGTGTGTGTGTGTGT" ++ "AACAACAACAACAAC" ++ "ACCACCACCACCACC" ++
   "AAAAAAAAAAAAAAAAAAAA").toList

/-- A donor equal to the first 15 nt of its target. -/
def donor3 : List Char := "AACAACAACAACAAC".toList

/-- Target whose only homology-arm seed window on the before_cut side is at
position 0, with cut_after = 15. -/
def target3 : List Char := ("AACAACAACAACAAC" ++ "AAAAAAAAAAAAAAAAAAAA").toList

/-- A 20 nt target whose first 15 nt match a donor-window prefix but which
contains the donor-window suffix nowhere. -/
def target2 : List Char := "AACAACAACAACAACAAAAA".toList

/-- A 30 nt candidate donor window whose last 15 characters do not occur in
`target2`. -/
def dw2 : List Char := ("AACAACAACAACAAC" ++ "GGTGGTGGTGGTGGT").toList

/-- A PCR-type donor: 5 nt adapter, 20 nt HA_1, 4 nt insert, 20 nt HA_2,
5 nt adapter (54 nt total). -/
def donor4 : List Char :=
  ("GGGGG" ++ "AACCACACCAACACCCAACC" ++ "GTGT" ++ "ACACCAACCCACCACAACAC" ++
   "GGGGG").toList

/-- Target for `donor4`: 20 nt flank, the two homology arms abutting at the
cut (cut_after = 40), 20 nt flank (80 nt total). -/
def target4 : List Char :=
  ("GTGTGTGTGTGTGTGTGTGT" ++ "AACCACACCAACACCCAACC" ++ "ACACCAACCCACCACAACAC" ++
   "TGTGTGTGTGTGTGTGTGTG").toList

/-- The winning candidate record for `donor4`/`target4`: donor HA window
[5, 49) (44 nt), target HA span [20, 60) (40 nt), crossover after 20 nt. -/
def info4 : HAInfo := ⟨0, donor4, 5, 49, 20, 60, 20, 20, 14⟩

/-- A 60 nt aperiodic sequence used both as donor and as target to produce
two tied candidates. -/
def target7 : List Char :=
  "AATCGGCTAAGGCTTACGATCCGTAATGCCGATTACGGATCGTTAGCCATAACGTTGCCA".toList

/-- A matcher input producing two before_cut alignments and one after_cut
alignment, hence two compatible candidate pairs. -/
def mapper7 : Nat → Nat → List Alignment := fun s _ =>
  if s = 15 then [⟨0, 15, false⟩, ⟨20, 35, false⟩]
  else if s = 30 then [⟨40, 55, false⟩] else []

/-- First candidate record produced for `mapper7` on `target7`. -/
def info7a : HAInfo := ⟨0, target7, 0, 55, 0, 55, 1, 54, 5⟩

/-- Second candidate record produced for `mapper7` on `target7`. -/
def info7b : HAInfo := ⟨0, target7, 20, 55, 20, 55, 1, 34, 25⟩

/-- A 30 nt aperiodic sequence used as an exactly-matching candidate window
for the crossover-scan witness. -/
def t6 : List Char := "AATCGGCTAAGGCTTACGATCCGTAATGCC".toList

/-- The candidate record for the `t6` instance. -/
def info6 : HAInfo := ⟨0, t6, 0, 30, 0, 30, 1, 29, 0⟩

/-- A 30 nt sequence used as donor for the minus-strand flip witness. -/
def d8 : List Char := "AATCGGCTAAGGCTTACGATCCGTAATGCC".toList

/-- The crossover objective exactly as the specification words it:
`total_mismatches[i]` = (count of mismatching positions `0..i` inclusive) +
(count of mismatching positions strictly after `i`), stated to be compared
with the array the code computes. -/
def spec_total_mismatches (xs ys : List Char) (i : Nat) : Nat :=
  (mmList (xs.take (i + 1)) (ys.take (i + 1))).sum +
  (mmList (xs.drop (i + 1)) (ys.drop (i + 1))).sum

/-! ### Claim theorems -/

/-- Claim C1 (code_bug): when both seed scans succeed but no compatible
alignment pair produces a candidate (`possible_HAs` empty), the source
builds the failure dict `failed: cannot locate homology arms` but then
immediately evaluates `results['lengths']`, raising KeyError instead of
returning the tagged failure: on this concrete input both scans succeed
(one plus-strand before alignment, one minus-strand after alignment), no
pair is compatible, and the call ends in the uncaught KeyError. -/
theorem no_candidates_keyerror :
    identify_homology_arms donor1 "plasmid" target1 35 15 =
      HAResult.pyError "KeyError: lengths" ∧
    findAlignments (fun s e => seedAndExtend donor1 target1 s e) 15
      (beforeSeedStarts 35 15) = some [⟨0, 15, false⟩] ∧
    findAlignments (fun s e => seedAndExtend donor1 target1 s e) 15
      (afterSeedStarts target1.length 35 15) = some [⟨17, 32, true⟩] := by
  exact ⟨rfl, rfl, rfl⟩

/-- Claim C2 (code_bug): a failed suffix search is not detected, because
the code tests `target_HA_end == -1` only after adding `len(donor_suffix)`
to the `find` result: on this candidate the suffix does not occur in the
target (`find` returns `-1`, so `target_HA_end = 14`), yet the call does
not return the tagged failure and instead completes the candidate with
bogus coordinates. -/
theorem suffix_no_match_not_detected :
    pyFind target2 (donor_suf 15 (donor_window dw2 0 30)) ((15 : Int) - (15 : Int)) = -1 ∧
    processCandidate target2 15 15 30 (dw2, 0, 30) =
      CandOut.ok ⟨0, dw2, 0, 30, 0, 14, 14, 0, 16⟩ := by
  exact ⟨rfl, rfl⟩

/-- Claim C3 (counterexample): the before_cut scan never tries seed start
position 0, because `range(cut_after - required_match_length, 0, -1)` stops
at 1: here `cut_after = 15`, the claimed first window start is 0 and the
window at 0 yields an alignment, yet the code's scan range is empty and the
call fails with the before_cut message. -/
theorem before_scan_skips_position_zero :
    identify_homology_arms donor3 "plasmid" target3 15 15 =
      HAResult.failed "cannot locate homology arm on before_cut" ∧
    seedAndExtend donor3 target3 0 15 ≠ [] ∧
    beforeSeedStarts 15 15 = [] := by
  refine ⟨rfl, by decide, rfl⟩

/-- Claim C3 (amended): the before_cut scan tries seed windows of length
`required_match_length` starting at `cut_after - required_match_length` and
sliding leftward down to and including position 1 (position 0 is never
tried); it stops at the first window yielding an alignment, and if every
position in that range yields none the call fails with the before_cut
message. -/
theorem before_scan_range (mapper : Nat → Nat → List Alignment)
    (d : List Char) (dt : String) (t : List Char) (c rml : Nat) :
    (∀ s, s ∈ beforeSeedStarts c rml ↔ (1 ≤ s ∧ s + rml ≤ c)) ∧
    ((∀ s ∈ beforeSeedStarts c rml, mapper s (s + rml) = []) →
      identify_homology_arms_with mapper d dt t c rml =
        HAResult.failed "cannot locate homology arm on before_cut") ∧
    (∀ (l1 l2 : List Nat) (sstar : Nat),
      beforeSeedStarts c rml = l1 ++ sstar :: l2 →
      (∀ s ∈ l1, mapper s (s + rml) = []) →
      mapper sstar (sstar + rml) ≠ [] →
      findAlignments mapper rml (beforeSeedStarts c rml) =
        some (mapper sstar (sstar + rml))) := by
  refine ⟨?_, ?_, ?_⟩
  · intro s
    simp only [beforeSeedStarts, List.mem_reverse, List.mem_range'_1]
    omega
  · intro h
    have hnone := findAlignments_eq_none mapper rml _ h
    simp only [identify_homology_arms_with, best_info, hnone]
  · intro l1 l2 sstar hdecomp h1 h2
    rw [hdecomp]
    exact findAlignments_first mapper rml l1 l2 sstar h1 h2

/-- Witness for the amended C3 theorem at concrete inputs: the range
characterisation at s = 3, the exhausted-scan failure for the empty
matcher, and the first-hit behaviour for a matcher hitting only at
seed start 3. -/
theorem before_scan_range_witness :
    ((3 : Nat) ∈ beforeSeedStarts 20 15 ↔ (1 ≤ 3 ∧ 3 + 15 ≤ 20)) ∧
    identify_homology_arms_with (fun _ _ => []) donor3 "plasmid" target3 20 15 =
      HAResult.failed "cannot locate homology arm on before_cut" ∧
    findAlignments (fun s _ => if s = 3 then [⟨0, 15, false⟩] else []) 15
      (beforeSeedStarts 20 15) = some [⟨0, 15, false⟩] := by
  refine ⟨(before_scan_range (fun _ _ => []) donor3 "plasmid" target3 20 15).1 3, ?_, ?_⟩
  · exact (before_scan_range (fun _ _ => []) donor3 "plasmid" target3 20 15).2.1
      (fun s _ => rfl)
  · have h := (before_scan_range (fun s _ => if s = 3 then [⟨0, 15, false⟩] else [])
      donor3 "plasmid" target3 20 15).2.2 [5, 4] [2, 1] 3 (by decide) (by decide) (by decide)
    simpa using h

/-- Claim C4 (counterexample): for a PCR-type donor whose HA span does not
reach the donor ends, both PCR adapter features are emitted, yet
`lengths[HA_1] + lengths[donor_specific] + lengths[HA_2]` plus the adapter
lengths exceeds `len(donor_seq)` (the computed `donor_specific` length
`len(donor_seq) - total_HA_length` already absorbs the adapter lengths):
here 20 + 14 + 20 + (5 + 5) = 64 ≠ 54. -/
theorem pcr_adapter_length_overcount :
    best_info (fun s e => seedAndExtend donor4 target4 s e) donor4 target4 40 15 =
      Except.ok info4 ∧
    identify_homology_arms donor4 "PCR" target4 40 15 =
      HAResult.success donor4
        [⟨"HA_1", 5, 25, 1⟩, ⟨"donor_specific", 25, 29, 1⟩, ⟨"HA_2", 29, 49, 1⟩,
         ⟨"PCR_adapter_1", 0, 5, 1⟩, ⟨"PCR_adapter_2", 49, 54, 1⟩]
        [⟨"HA_1", 20, 40, 1⟩, ⟨"HA_2", 40, 60, 1⟩] ∧
    (info4.HA_1 : Int) + info4.donor_specific + (info4.HA_2 : Int) +
      ((5 - 0) + (54 - 49)) ≠ (donor4.length : Int) := by
  exact ⟨rfl, rfl, by decide⟩

/-- Claim C4 (amended): for every successful result,
`lengths[HA_1] + lengths[donor_specific] + lengths[HA_2] == len(donor_seq)`
holds unconditionally — also for PCR-type donors with emitted adapter
features, whose lengths are already contained in the computed
`lengths[donor_specific]` and must not be added again. -/
theorem length_conservation (mapper : Nat → Nat → List Alignment) (d t : List Char)
    (c rml : Nat) (info : HAInfo)
    (h : best_info mapper d t c rml = .ok info) :
    (info.HA_1 : Int) + info.donor_specific + (info.HA_2 : Int) = (d.length : Int) := by
  obtain ⟨pfd, hs, he, hproc⟩ := best_info_processed mapper d t c rml info h
  obtain ⟨hts, hte, hlt, htot, hinfo⟩ :=
    processCandidate_ok t c rml d.length pfd hs he info hproc
  obtain ⟨h0, hn, hrel⟩ := target_HA_bounds t c rml (donor_window pfd hs he) hts hlt
  have hidx := (argminIdx_spec _ htot).1
  have htl : (total_mismatches (relevant_target_seq t c rml (donor_window pfd hs he))
      (donor_window pfd hs he)).length ≤
      (relevant_target_seq t c rml (donor_window pfd hs he)).length := by
    rw [total_mismatches_length]
    omega
  subst hinfo
  simp only [candInfo]
  omega

/-- Witness for the amended C4 theorem: on the two-candidate `mapper7`
instance the winning record satisfies 1 + 5 + 54 = 60. -/
theorem length_conservation_witness :
    best_info mapper7 target7 target7 30 15 = Except.ok info7a ∧
    (info7a.HA_1 : Int) + info7a.donor_specific + (info7a.HA_2 : Int) =
      (target7.length : Int) := by
  exact ⟨rfl, length_conservation mapper7 target7 target7 30 15 info7a rfl⟩

/-- Claim C5 (counterexample): the target-span equality holds but the
donor-span equality fails on an ordinary insertion donor: the winning
candidate's donor window is [5, 49) (44 nt, containing the 4 nt insert)
while `lengths[HA_1] + lengths[HA_2] = 40`. -/
theorem donor_span_mismatch :
    best_info (fun s e => seedAndExtend donor4 target4 s e) donor4 target4 40 15 =
      Except.ok info4 ∧
    info4.target_HA_end - info4.target_HA_start = (info4.HA_1 : Int) + (info4.HA_2 : Int) ∧
    info4.donor_HA_end - info4.donor_HA_start ≠ (info4.HA_1 : Int) + (info4.HA_2 : Int) := by
  exact ⟨rfl, by decide, by decide⟩

/-- Claim C5 (amended): for every successful result,
`target_HA_end - target_HA_start == lengths[HA_1] + lengths[HA_2]` always
holds; `donor_HA_end - donor_HA_start == lengths[HA_1] + lengths[HA_2]`
holds only under the additional assumptions (which the code never checks)
that the donor window coordinates are within bounds, the located target
span lies inside the target, and the donor window length equals the target
span length. -/
theorem span_equalities (mapper : Nat → Nat → List Alignment) (d t : List Char)
    (c rml : Nat) (info : HAInfo)
    (h : best_info mapper d t c rml = .ok info) :
    info.target_HA_end - info.target_HA_start = (info.HA_1 : Int) + (info.HA_2 : Int) ∧
    (0 ≤ info.donor_HA_start → info.donor_HA_start ≤ info.donor_HA_end →
      info.donor_HA_end ≤ (info.possibly_flipped_donor_seq.length : Int) →
      info.target_HA_end ≤ (t.length : Int) →
      (strSlice info.possibly_flipped_donor_seq info.donor_HA_start info.donor_HA_end).length =
        (strSlice t info.target_HA_start info.target_HA_end).length →
      info.donor_HA_end - info.donor_HA_start = (info.HA_1 : Int) + (info.HA_2 : Int)) := by
  obtain ⟨pfd, hs, he, hproc⟩ := best_info_processed mapper d t c rml info h
  obtain ⟨hts, hte, hlt, htot, hinfo⟩ :=
    processCandidate_ok t c rml d.length pfd hs he info hproc
  obtain ⟨h0, hn, hrel⟩ := target_HA_bounds t c rml (donor_window pfd hs he) hts hlt
  have hidx := (argminIdx_spec _ htot).1
  have htl : (total_mismatches (relevant_target_seq t c rml (donor_window pfd hs he))
      (donor_window pfd hs he)).length ≤
      (relevant_target_seq t c rml (donor_window pfd hs he)).length := by
    rw [total_mismatches_length]
    omega
  subst hinfo
  constructor
  · simp only [candInfo]
    omega
  · simp only [candInfo]
    intro hb1 hb2 hb3 hb4 hleq
    have hwin : (strSlice pfd hs he).length = (he - hs).toNat :=
      strSlice_length_of_le pfd hs he hb1 hb2 hb3
    have hrlen : (strSlice t (target_HA_start t c rml (donor_window pfd hs he))
        (target_HA_end t c rml (donor_window pfd hs he))).length =
        (target_HA_end t c rml (donor_window pfd hs he) -
          target_HA_start t c rml (donor_window pfd hs he)).toNat :=
      strSlice_length_of_le t _ _ h0 (le_of_lt hlt) hb4
    rw [hwin, hrlen] at hleq
    omega

/-- Witness for the amended C5 theorem: on the `mapper7` instance both
equalities are concrete (55 - 0 = 1 + 54, and the donor window [0, 55) has
the same length as the target span [0, 55)). -/
theorem span_equalities_witness :
    best_info mapper7 target7 target7 30 15 = Except.ok info7a ∧
    info7a.target_HA_end - info7a.target_HA_start =
      (info7a.HA_1 : Int) + (info7a.HA_2 : Int) ∧
    info7a.donor_HA_end - info7a.donor_HA_start =
      (info7a.HA_1 : Int) + (info7a.HA_2 : Int) := by
  have h := span_equalities mapper7 target7 target7 30 15 info7a rfl
  exact ⟨rfl, h.1, h.2 (by decide) (by decide) (by decide) (by decide) (by decide)⟩

/-- Claim C6: for a candidate whose located target span has the same length
as the donor window (the pairing under which the claim's positional
formula describes the code's array), the chosen crossover index `i*`
satisfies `total_mismatches[i*] ≤ total_mismatches[i]` for every `i` in
`[0, total_HA_length)` with `total_mismatches` as the claim defines it
(mismatches at positions `0..i` plus mismatches strictly after `i`), the
lowest index is chosen among ties, and `lengths[HA_1] = i* + 1`. -/
theorem crossover_minimality (t : List Char) (c rml dl : Nat) (pfd : List Char)
    (hs he : Int) (info : HAInfo)
    (hok : processCandidate t c rml dl (pfd, hs, he) = CandOut.ok info)
    (hn : target_HA_end t c rml (donor_window pfd hs he) ≤ (t.length : Int))
    (hlen : (relevant_target_seq t c rml (donor_window pfd hs he)).length =
      (donor_window pfd hs he).length) :
    ∃ istar : Nat,
      info.HA_1 = istar + 1 ∧
      istar < (info.target_HA_end - info.target_HA_start).toNat ∧
      (∀ i < (info.target_HA_end - info.target_HA_start).toNat,
        spec_total_mismatches (relevant_target_seq t c rml (donor_window pfd hs he))
          (donor_window pfd hs he) istar ≤
        spec_total_mismatches (relevant_target_seq t c rml (donor_window pfd hs he))
          (donor_window pfd hs he) i) ∧
      (∀ j < istar,
        spec_total_mismatches (relevant_target_seq t c rml (donor_window pfd hs he))
          (donor_window pfd hs he) istar <
        spec_total_mismatches (relevant_target_seq t c rml (donor_window pfd hs he))
          (donor_window pfd hs he) j) := by
  obtain ⟨hts, hte, hlt, htot, hinfo⟩ :=
    processCandidate_ok t c rml dl pfd hs he info hok
  obtain ⟨h0, hsn, hrel⟩ := target_HA_bounds t c rml (donor_window pfd hs he) hts hlt
  have hrellen : (relevant_target_seq t c rml (donor_window pfd hs he)).length =
      (target_HA_end t c rml (donor_window pfd hs he) -
        target_HA_start t c rml (donor_window pfd hs he)).toNat :=
    strSlice_length_of_le t _ _ h0 (le_of_lt hlt) hn
  have htotlen : (total_mismatches (relevant_target_seq t c rml (donor_window pfd hs he))
      (donor_window pfd hs he)).length =
      (relevant_target_seq t c rml (donor_window pfd hs he)).length := by
    rw [total_mismatches_length, hlen]
    omega
  obtain ⟨hidx, hmin, hfirst⟩ := argminIdx_spec _ htot
  have hbridge : ∀ i < (relevant_target_seq t c rml (donor_window pfd hs he)).length,
      (total_mismatches (relevant_target_seq t c rml (donor_window pfd hs he))
        (donor_window pfd hs he)).getD i 0 =
      spec_total_mismatches (relevant_target_seq t c rml (donor_window pfd hs he))
        (donor_window pfd hs he) i := by
    intro i hi
    exact total_mismatches_getD _ _ hlen i hi
  subst hinfo
  refine ⟨argminIdx (total_mismatches (relevant_target_seq t c rml (donor_window pfd hs he))
    (donor_window pfd hs he)), ?_, ?_, ?_, ?_⟩
  · simp only [candInfo]
  · simp only [candInfo]
    omega
  · simp only [candInfo]
    intro i hi
    rw [← hbridge _ (by omega), ← hbridge _ (by omega)]
    exact hmin i (by omega)
  · intro j hj
    rw [← hbridge _ (by omega), ← hbridge _ (by omega)]
    by_contra hcon
    push_neg at hcon
    have := hfirst j (by omega) hcon
    omega

/-- Witness for the C6 theorem: for the exactly-matching 30 nt candidate
window the crossover index is 0 and `lengths[HA_1] = 1`. -/
theorem crossover_minimality_witness :
    processCandidate t6 15 15 30 (t6, 0, 30) = CandOut.ok info6 ∧
    (∃ istar : Nat,
      info6.HA_1 = istar + 1 ∧
      istar < (info6.target_HA_end - info6.target_HA_start).toNat ∧
      (∀ i < (info6.target_HA_end - info6.target_HA_start).toNat,
        spec_total_mismatches (relevant_target_seq t6 15 15 (donor_window t6 0 30))
          (donor_window t6 0 30) istar ≤
        spec_total_mismatches (relevant_target_seq t6 15 15 (donor_window t6 0 30))
          (donor_window t6 0 30) i) ∧
      (∀ j < istar,
        spec_total_mismatches (relevant_target_seq t6 15 15 (donor_window t6 0 30))
          (donor_window t6 0 30) istar <
        spec_total_mismatches (relevant_target_seq t6 15 15 (donor_window t6 0 30))
          (donor_window t6 0 30) j)) := by
  exact ⟨rfl, crossover_minimality t6 15 15 30 t6 0 30 info6 rfl (by decide) (by decide)⟩

/-- Claim C7: when candidates exist, the returned record is Python's
`min(possible_HAs, key=priority)`: it belongs to the candidate list, its
key `(min_mismatches, -min(HA_1, HA_2))` is lexicographically minimal, and
among candidates attaining the minimal key the earliest in generation
order is returned. -/
theorem candidate_ranking (mapper : Nat → Nat → List Alignment) (d t : List Char)
    (c rml : Nat) (befores afters : List Alignment) (h0 : HAInfo) (tl : List HAInfo)
    (hb : findAlignments mapper rml (beforeSeedStarts c rml) = some befores)
    (ha : findAlignments mapper rml (afterSeedStarts t.length c rml) = some afters)
    (hscan : scanCandidates t c rml d.length
      (possible_HA_boundaries d befores afters) = .ok (h0 :: tl)) :
    best_info mapper d t c rml = .ok (pyMinBy h0 tl) ∧
    ∃ i, ∃ hi : i < (h0 :: tl).length,
      pyMinBy h0 tl = (h0 :: tl).get ⟨i, hi⟩ ∧
      (∀ j (hj : j < (h0 :: tl).length),
        priorityKey (pyMinBy h0 tl) ≤ priorityKey ((h0 :: tl).get ⟨j, hj⟩)) ∧
      (∀ j (hj : j < (h0 :: tl).length),
        priorityKey ((h0 :: tl).get ⟨j, hj⟩) ≤ priorityKey (pyMinBy h0 tl) → i ≤ j) := by
  constructor
  · simp only [best_info, hb, ha, hscan]
  · exact foldMin_spec priorityKey tl h0

/-- Witness for the C7 theorem: the `mapper7` instance yields two
candidates with equal priority keys, and the first one is returned. -/
theorem candidate_ranking_witness :
    scanCandidates target7 30 15 target7.length
      (possible_HA_boundaries target7 [⟨0, 15, false⟩, ⟨20, 35, false⟩]
        [⟨40, 55, false⟩]) = .ok [info7a, info7b] ∧
    priorityKey info7a = priorityKey info7b ∧
    pyMinBy info7a [info7b] = info7a ∧
    (best_info mapper7 target7 target7 30 15 = .ok (pyMinBy info7a [info7b]) ∧
      ∃ i, ∃ hi : i < ([info7a, info7b] : List HAInfo).length,
        pyMinBy info7a [info7b] = ([info7a, info7b] : List HAInfo).get ⟨i, hi⟩ ∧
        (∀ j (hj : j < ([info7a, info7b] : List HAInfo).length),
          priorityKey (pyMinBy info7a [info7b]) ≤
            priorityKey (([info7a, info7b] : List HAInfo).get ⟨j, hj⟩)) ∧
        (∀ j (hj : j < ([info7a, info7b] : List HAInfo).length),
          priorityKey (([info7a, info7b] : List HAInfo).get ⟨j, hj⟩) ≤
            priorityKey (pyMinBy info7a [info7b]) → i ≤ j)) := by
  refine ⟨rfl, by decide, rfl, ?_⟩
  exact candidate_ranking mapper7 target7 target7 30 15
    [⟨0, 15, false⟩, ⟨20, 35, false⟩] [⟨40, 55, false⟩] info7a [info7b] rfl rfl rfl

/-- Claim C8: every minus-strand compatible alignment pair (before
alignment's reference start past the after alignment's reference end)
emits a candidate carrying the reverse-complemented donor with its
boundary coordinates flipped by `start = L - 1 - (ref_end - 1)` and
`end = L - 1 - ref_start + 1`. -/
theorem minus_strand_flip (d : List Char) (befores afters : List Alignment)
    (b a : Alignment) (hbm : b ∈ befores) (ham : a ∈ afters)
    (hbr : b.is_reverse = true) (har : a.is_reverse = true)
    (hgt : b.reference_start > a.reference_end) :
    (reverse_complement d,
      ((d.length : Int) - 1 - ((b.reference_end : Int) - 1),
       (d.length : Int) - 1 - (a.reference_start : Int) + 1)) ∈
      possible_HA_boundaries d befores afters := by
  simp only [possible_HA_boundaries, List.mem_flatMap]
  refine ⟨b, hbm, ?_⟩
  simp only [List.mem_filterMap]
  refine ⟨a, ham, ?_⟩
  rw [hbr, har]
  simp [hgt]

/-- Witness for the C8 theorem: the pair before = (10, 25, minus),
after = (0, 5, minus) on a 30 nt donor yields the flipped candidate
`(reverse_complement d8, 5, 30)`. -/
theorem minus_strand_flip_witness :
    (reverse_complement d8,
      ((d8.length : Int) - 1 - ((25 : Int) - 1),
       (d8.length : Int) - 1 - (0 : Int) + 1)) ∈
      possible_HA_boundaries d8 [⟨10, 25, true⟩] [⟨0, 5, true⟩] := by
  exact minus_strand_flip d8 [⟨10, 25, true⟩] [⟨0, 5, true⟩] ⟨10, 25, true⟩ ⟨0, 5, true⟩
    (by decide) (by decide) rfl rfl (by decide)

/-- Claim C9: `identify_homology_arms` is a pure function of its inputs:
repeated runs on the same `(donor_seq, donor_type, target_seq, cut_after,
required_match_length)` return the same result. -/
theorem determinism (d : List Char) (dt : String) (t : List Char) (c rml : Nat) :
    identify_homology_arms d dt t c rml = identify_homology_arms d dt t c rml := rfl

/-- Claim C10: the code never compares the located target span length with
the donor window length: whenever the three in-target checks pass and the
mismatch array is nonempty, the candidate completes successfully — no
hypothesis about the two lengths being equal is needed — and the array the
scan minimises has exactly `min(target span length, donor window length)`
entries. -/
theorem span_length_unchecked (t : List Char) (c rml dl : Nat) (pfd : List Char)
    (hs he : Int)
    (hts : target_HA_start t c rml (donor_window pfd hs he) ≠ -1)
    (hte : target_HA_end t c rml (donor_window pfd hs he) ≠ -1)
    (hlt : target_HA_start t c rml (donor_window pfd hs he) <
      target_HA_end t c rml (donor_window pfd hs he))
    (hm : total_mismatches (relevant_target_seq t c rml (donor_window pfd hs he))
      (donor_window pfd hs he) ≠ []) :
    processCandidate t c rml dl (pfd, hs, he) = CandOut.ok (candInfo t c rml dl pfd hs he) ∧
    (total_mismatches (relevant_target_seq t c rml (donor_window pfd hs he))
      (donor_window pfd hs he)).length =
      min (relevant_target_seq t c rml (donor_window pfd hs he)).length
        (donor_window pfd hs he).length := by
  constructor
  · simp only [processCandidate]
    rw [if_neg (by push_neg; exact ⟨hts, hte, hlt⟩), if_neg hm]
  · exact total_mismatches_length _ _

/-- Witness for the C10 theorem: on the `target2`/`dw2` candidate the
target span (14 nt) and donor window (30 nt) have different lengths, yet
the candidate completes successfully with a mismatch scan over
min(14, 30) = 14 positions. -/
theorem span_length_unchecked_witness :
    (relevant_target_seq target2 15 15 (donor_window dw2 0 30)).length ≠
      (donor_window dw2 0 30).length ∧
    processCandidate target2 15 15 30 (dw2, 0, 30) =
      CandOut.ok (candInfo target2 15 15 30 dw2 0 30) ∧
    (total_mismatches (relevant_target_seq target2 15 15 (donor_window dw2 0 30))
      (donor_window dw2 0 30)).length =
      min (relevant_target_seq target2 15 15 (donor_window dw2 0 30)).length
        (donor_window dw2 0 30).length := by
  have h := span_length_unchecked target2 15 15 30 dw2 0 30
    (by decide) (by decide) (by decide) (by decide)
  exact ⟨by decide, h.1, h.2⟩

end KnockKnock
